import Mathlib

/-!
Verification development for the kcc repository (kaedenn/kcc): a shallow
embedding of src/kaedenn/gcc/parser.py (class Parser) and
src/kaedenn/gcc/beautifier.py (class Beautifier) in Lean 4.

Strings are modeled as List Char.  Python operations used by the source are
modeled one by one:
- str.strip()            -> pyStrip
- substring test (in)    -> containsSub
- str.replace(a, b)      -> replaceAll (including Python's empty-pattern
                            behaviour where the replacement is inserted at
                            every position)
- str.split()            -> pySplitWs
- str.split("=")         -> List.splitOn
- ": ".join(...)         -> joinSep
- int(...)               -> pyInt (Except: raises ValueError on non-numeric
                            text, mirroring Python; accepts digit groups
                            separated by single underscores)
- re.split / re.match / re.sub of the handful of concrete regexes in the
  source are modeled by dedicated functions (splitSegs, matchFile,
  matchLinker, matchLinePat, matchMsg, matchSysLen/subSysAll, findCodes,
  findWithMatch/subWithAll), each following the exact pattern text.

Exceptions (IndexError from list indexing, ValueError from int() and from
tuple unpacking) are modeled with Except PyExn: the Python code has no
try/except, so a raised exception aborts the computation.

Bounded loops whose termination argument is a strictly decreasing string
length are written with an explicit fuel argument of s.length + 1, which is
sufficient because every iteration consumes at least one character; this
keeps every definition structurally recursive so that concrete inputs
evaluate by kernel reduction.
-/

set_option maxRecDepth 100000

/-- Python exceptions that the modeled code can raise. -/
inductive PyExn where
  | indexError : PyExn
  | valueError : PyExn
deriving Repr, DecidableEq

instance {ε α : Type} [DecidableEq ε] [DecidableEq α] : DecidableEq (Except ε α) :=
  fun x y =>
    match x, y with
    | .error a, .error b =>
        if h : a = b then isTrue (by rw [h]) else isFalse (by intro hh; cases hh; exact h rfl)
    | .error _, .ok _ => isFalse (by intro hh; cases hh)
    | .ok _, .error _ => isFalse (by intro hh; cases hh)
    | .ok a, .ok b =>
        if h : a = b then isTrue (by rw [h]) else isFalse (by intro hh; cases hh; exact h rfl)

/-- Whitespace as recognized by Python's str.strip / str.split / regex \s
(space, tab, CR, LF; the rare form-feed and vertical-tab characters are not
modeled). -/
def isPyWs (c : Char) : Bool := c.isWhitespace

/-- Python str.strip(): drop leading and trailing whitespace. -/
def pyStrip (s : List Char) : List Char :=
  ((s.dropWhile isPyWs).reverse.dropWhile isPyWs).reverse

/-- Python substring membership test (a in b). -/
def containsSub (p : List Char) : List Char → Bool
  | [] => p.isPrefixOf []
  | c :: cs => p.isPrefixOf (c :: cs) || containsSub p cs

/-- Worker for replaceAll: scan left to right, replacing each non-overlapping
occurrence of p (p nonempty) and continuing after the replaced span. -/
def replAux (p r : List Char) : Nat → List Char → List Char
  | 0, s => s
  | fuel + 1, s =>
    if p.isPrefixOf s then r ++ replAux p r fuel (s.drop p.length)
    else
      match s with
      | [] => []
      | c :: cs => c :: replAux p r fuel cs

/-- Python str.replace(p, r): replace every non-overlapping occurrence of p
left to right.  For the empty pattern Python inserts r at every position. -/
def replaceAll (p r s : List Char) : List Char :=
  if p = [] then r ++ s.flatMap (fun c => c :: r)
  else replAux p r (s.length + 1) s

/-- Python sep.join(pieces). -/
def joinSep (sep : List Char) : List (List Char) → List Char
  | [] => []
  | [x] => x
  | x :: y :: t => x ++ sep ++ joinSep sep (y :: t)

/-- The while loop in Beautifier.build collapsing every occurrence of a
greater-greater pair separated by a space until none remains.  Each pass
strictly shrinks the text, so fuel s.length + 1 is enough. -/
def gtGtAux : Nat → List Char → List Char
  | 0, s => s
  | fuel + 1, s =>
    if containsSub ('>' :: ' ' :: ['>']) s then
      gtGtAux fuel (replaceAll ('>' :: ' ' :: ['>']) ('>' :: ['>']) s)
    else s

def collapseGtGt (s : List Char) : List Char := gtGtAux (s.length + 1) s

/-- Worker for splitSegs: re.split of the separator
(?:(?<!:):(?!:))|\,$ used by Parser.parse_line, i.e. split on a colon
neither preceded nor followed by a colon, or on a comma at end of string.
prev is the previous character (for the lookbehind), cur accumulates the
current piece in reverse. -/
def segGo (cur : List Char) (prev : Option Char) : List Char → List (List Char)
  | [] => [cur.reverse]
  | c :: rest =>
    if c = ':' ∧ prev ≠ some ':' ∧ rest.head? ≠ some ':' then
      cur.reverse :: segGo [] (some ':') rest
    else if c = ',' ∧ rest = [] then [cur.reverse, []]
    else segGo (c :: cur) (some c) rest

def splitSegs (s : List Char) : List (List Char) := segGo [] none s

/-- Python str.split() with no argument: split on whitespace runs, dropping
empty pieces.  Fuel-bounded; each step consumes at least one character. -/
def pySplitWsAux : Nat → List Char → List (List Char)
  | 0, _ => []
  | fuel + 1, s =>
    let t := s.dropWhile isPyWs
    match t with
    | [] => []
    | _ :: _ =>
      let w := t.takeWhile (fun c => !isPyWs c)
      w :: pySplitWsAux fuel (t.drop w.length)

def pySplitWs (s : List Char) : List (List Char) := pySplitWsAux (s.length + 1) s

/-- ASCII digit test, matching the regex character class [0-9]. -/
def isDigitA (c : Char) : Bool := c.isDigit

/-- No two adjacent underscores (part of Python's int() literal grammar). -/
def noDoubleUnd : List Char → Bool
  | [] => true
  | [_] => true
  | a :: b :: t => !(a = '_' ∧ b = '_') && noDoubleUnd (b :: t)

/-- Domain of Python int() restricted to unsigned decimal text: ASCII digit
groups separated by single underscores (leading/trailing underscores are
rejected, as in Python). -/
def pyIntValid (s : List Char) : Bool :=
  match s with
  | [] => false
  | _ =>
    s.all (fun c => isDigitA c || c = '_') &&
    (match s.head? with | some c => isDigitA c | none => false) &&
    (match s.getLast? with | some c => isDigitA c | none => false) &&
    noDoubleUnd s

def pyIntNat (s : List Char) : Nat :=
  (s.filter (fun c => c ≠ '_')).foldl (fun acc c => acc * 10 + (c.toNat - 48)) 0

/-- Python int(s) on an arbitrary string: ValueError outside the accepted
grammar. -/
def pyInt (s : List Char) : Except PyExn Int :=
  if pyIntValid s then .ok (pyIntNat s : Int) else .error .valueError

/-- Parser._next_token worker (the enumerate loop).  The four counters track
the nesting depth of the four bracket kinds; i is the index reached so far
(relative to the scan start).  Returns the index of the terminating
delimiter, none on a negative counter or at end of string. -/
def ntGo : List Char → Int → Int → Int → Int → Nat → Option Nat
  | [], _, _, _, _, _ => none
  | c :: rest, d1, d2, d3, d4, i =>
    if (c = ',' ∨ c = '=') ∧ d1 = 0 ∧ d2 = 0 ∧ d3 = 0 ∧ d4 = 0 then some i
    else if c = '<' then ntGo rest (d1 + 1) d2 d3 d4 (i + 1)
    else if c = '[' then ntGo rest d1 (d2 + 1) d3 d4 (i + 1)
    else if c = '{' then ntGo rest d1 d2 (d3 + 1) d4 (i + 1)
    else if c = '(' then ntGo rest d1 d2 d3 (d4 + 1) (i + 1)
    else if c = '>' then
      if d1 - 1 < 0 then none else ntGo rest (d1 - 1) d2 d3 d4 (i + 1)
    else if c = ']' then
      if d2 - 1 < 0 then none else ntGo rest d1 (d2 - 1) d3 d4 (i + 1)
    else if c = '}' then
      if d3 - 1 < 0 then none else ntGo rest d1 d2 (d3 - 1) d4 (i + 1)
    else if c = ')' then
      if d4 - 1 < 0 then none else ntGo rest d1 d2 d3 (d4 - 1) (i + 1)
    else ntGo rest d1 d2 d3 d4 (i + 1)

/-- Parser._next_token(line, begin): the balanced-delimiter tokenizer.
Returns line[begin : begin + i].strip() where i is the position of the first
comma or equals sign found while all four counters are zero; none when a
counter would go negative or the end of the string is reached. -/
def nextToken (s : List Char) (begin : Nat) : Option (List Char) :=
  (ntGo (s.drop begin) 0 0 0 0 0).map (fun i => pyStrip ((s.drop begin).take i))

example : nextToken "ab, c".data 0 = some ('a' :: ['b']) := by decide
example : nextToken "a<b,c>d = e".data 0 = some "a<b,c>d".data := by decide
example : nextToken "a>b,c".data 0 = none := by decide
example : nextToken "abc".data 0 = none := by decide

/-- re.match of the file pattern [^: ]+ : succeeds iff the segment is
nonempty and does not start with a colon or a space. -/
def matchFile (s : List Char) : Bool :=
  match s with
  | [] => false
  | c :: _ => !(c = ':') && !(c = ' ')

/-- re.match of the linker pattern \(\.[A-Za-z0-9_]+\+0x[A-Fa-f0-9_]+\) :
an opening parenthesis, a dot, at least one word character, a plus sign,
the literal 0x, at least one hex-or-underscore character, a closing
parenthesis — as a prefix of the segment. -/
def matchLinker (s : List Char) : Bool :=
  match s with
  | '(' :: '.' :: t =>
    let w := t.takeWhile (fun c => c.isAlphanum || c = '_')
    (w ≠ []) &&
      (match t.drop w.length with
       | '+' :: '0' :: 'x' :: u =>
         let h := u.takeWhile (fun c => isDigitA c || ('A' ≤ c ∧ c ≤ 'F') || ('a' ≤ c ∧ c ≤ 'f') || c = '_')
         (h ≠ []) && (match u.drop h.length with | ')' :: _ => true | _ => false)
       | _ => false)
  | _ => false

/-- re.match of the line/column pattern [0-9]+ : succeeds iff the segment
starts with an ASCII digit. -/
def matchLinePat (s : List Char) : Bool :=
  match s with
  | [] => false
  | c :: _ => isDigitA c

/-- re.match of the message pattern .+ : succeeds iff the segment is
nonempty and does not start with a newline (segments are stripped, so this
amounts to being nonempty). -/
def matchMsg (s : List Char) : Bool :=
  match s with
  | [] => false
  | c :: _ => !(c = '\n')

/-- Length of the match of the sys_file regex
\/usr\/include\/[^:]+:(?:[0-9]+(?:: |\,$)?)? at the head of cs (cs is the
suffix of the scanned string starting at the candidate position, so end of
cs is end of string for the $ anchor).  The literal prefix /usr/include/ is
followed by a nonempty run of non-colon characters, a colon, and optionally
a digit run itself optionally followed by a colon-space pair or a comma at
end of string. -/
def matchSysLen (cs : List Char) : Option Nat :=
  if "/usr/include/".data.isPrefixOf cs then
    let t := cs.drop 13
    let k := (t.takeWhile (fun c => c ≠ ':')).length
    if k = 0 then none
    else
      match t.drop k with
      | ':' :: u =>
        let m := (u.takeWhile isDigitA).length
        if m = 0 then some (13 + k + 1)
        else
          match u.drop m with
          | ':' :: ' ' :: _ => some (13 + k + 1 + m + 2)
          | [','] => some (13 + k + 1 + m + 1)
          | _ => some (13 + k + 1 + m)
      | _ => none
  else none

/-- re.match of the sys_file regex against a whole segment (used to set the
sys_file attribute in Parser.parse_line). -/
def matchSysPre (s : List Char) : Bool := (matchSysLen s).isSome

/-- re.sub of the sys_file regex with the empty replacement: scan left to
right, removing each match and continuing after it.  Fuel-bounded; every
step consumes at least one character (a match is at least 15 long). -/
def subSysAux : Nat → List Char → List Char
  | 0, s => s
  | fuel + 1, s =>
    match matchSysLen s with
    | some l => subSysAux fuel (s.drop l)
    | none =>
      match s with
      | [] => []
      | c :: cs => c :: subSysAux fuel cs

def subSysAll (s : List Char) : List Char := subSysAux (s.length + 1) s

/-- Opening typographic quote U+2018 used by gcc diagnostics. -/
def openQ : Char := Char.ofNat 8216

/-- Closing typographic quote U+2019. -/
def closeQ : Char := Char.ofNat 8217

/-- re.findall of the code pattern ‘[^’]+’ : every
non-overlapping quoted span with a nonempty body, left to right, returning
the bodies (Parser._parse_message strips the quotes with c[1:-1]).
Fuel-bounded; every step consumes at least one character. -/
def findCodesAux : Nat → List Char → List (List Char)
  | 0, _ => []
  | fuel + 1, s =>
    match s with
    | [] => []
    | c :: rest =>
      if c = openQ then
        let inner := rest.takeWhile (fun d => d ≠ closeQ)
        match inner, rest.drop inner.length with
        | _ :: _, _ :: after => (inner : List Char) :: findCodesAux fuel after
        | _, _ => findCodesAux fuel rest
      else findCodesAux fuel rest

def findCodes (s : List Char) : List (List Char) := findCodesAux (s.length + 1) s

example : matchSysLen "/usr/include/c++/4.4/bits/stl_vector.h:733: note".data = some 44 := by decide
example : subSysAll "/usr/include/x.h:5: error: oops".data = "error: oops".data := by decide
example : matchLinker "(.text+0x2F) more".data = true := by decide
example : (findCodes ("a ".data ++ [openQ] ++ "xy".data ++ [closeQ] ++ " b ".data ++ [openQ] ++ "z".data ++ [closeQ])).length = 2 := by decide

/-- One code fragment of a message: code["raw"], plus code["with_tokens"],
which is present (some) only after Beautifier._parse_message has run on the
fragment and absent (none) for a plain Parser. -/
structure CodeFrag where
  raw : List Char
  withTokens : Option (List (List Char × List Char))
deriving Repr, DecidableEq, Inhabited

/-- The message dictionary built by Parser._parse_message. -/
structure MsgA where
  raw : List Char
  codelist : List CodeFrag
deriving Repr, DecidableEq, Inhabited

/-- The attributes dictionary of Parser.  type uses the source's numeric
codes (LT_ERROR = 1, LT_WARNING = 2, LT_MESSAGE = 3, LT_NOTE = 4) with none
for the initial None.  sysFile is none while the "sys_file" key is absent
from the dictionary. -/
structure PAttrs where
  raw : List Char
  type : Option Nat
  file : List Char
  line : Int
  column : Int
  sysFile : Option Bool
  message : MsgA
deriving Repr, DecidableEq, Inhabited

/-- The attributes dictionary as initialized by Parser.__init__(line). -/
def defaultAttrs (line : List Char) : PAttrs :=
  { raw := line, type := none, file := [], line := -1, column := -1,
    sysFile := none, message := { raw := [], codelist := [] } }

/-- Parser._parse_message(segments): join the segments with ": ", collect
quoted code spans; if none, either everything after a leading
"candidates are" segment or the whole joined text (with ":") becomes the
single code fragment.  Pure — the plain parser cannot raise here. -/
def parseMessageP (segments : List (List Char)) : MsgA :=
  let message := joinSep (':' :: [' ']) segments
  let codes := findCodes message
  match codes with
  | _ :: _ => { raw := message, codelist := codes.map (fun c => { raw := c, withTokens := none }) }
  | [] =>
    match segments with
    | [] => { raw := message, codelist := [] }
    | s0 :: rest =>
      if s0 = "candidates are".data then
        { raw := message, codelist := [{ raw := joinSep [':'] rest, withTokens := none }] }
      else
        { raw := message,
          codelist := [{ raw := joinSep [':'] (s0 :: rest), withTokens := none }] }

/-- Search for the first match of the with-statement regex
\[with\s*(?P<with>[^\]]+)\] in s: returns the match length together with
the captured group.  At a candidate position the literal [with must be
followed by a nonempty run of non-] characters and a ]; the \s* consumes
the leading whitespace of that run, except that when the run is all
whitespace the engine backtracks so that [^\]]+ keeps its last character.
On failure at a position the scan advances one character. -/
def findWithMatch : List Char → Option (Nat × Nat × List Char)
  | [] => none
  | c :: rest =>
    if "[with".data.isPrefixOf (c :: rest) then
      let t := (c :: rest).drop 5
      let run := t.takeWhile (fun d => d ≠ ']')
      if run ≠ [] ∧ (t.drop run.length).head? = some ']' then
        let g := run.dropWhile isPyWs
        let g := if g = [] then run.drop (run.length - 1) else g
        some (0, 5 + run.length + 1, g)
      else (findWithMatch rest).map (fun x => (x.1 + 1, x.2.1, x.2.2))
    else (findWithMatch rest).map (fun x => (x.1 + 1, x.2.1, x.2.2))

/-- re.sub of the with-statement regex with the empty replacement, as used
in Beautifier.build: remove every match, continuing after each.
Fuel-bounded; every match is at least 7 characters long. -/
def subWithAux : Nat → List Char → List Char
  | 0, s => s
  | fuel + 1, s =>
    match findWithMatch s with
    | none => s
    | some (p, l, _) => s.take p ++ subWithAux fuel (s.drop (p + l))

def subWithAll (s : List Char) : List Char := subWithAux (s.length + 1) s

/-- The comma-splitting loop of Beautifier._parse_with_stmts over
stmt + ",": at a comma while all four bracket counters are zero the entry
accumulated since the previous split point is split on "=" and unpacked
into (key, value) — a ValueError when the entry does not contain exactly
one "=" — both sides stripped.  Counters are updated with no negativity
check (unlike _next_token).  acc holds the current entry in reverse. -/
def withSplitGo : List Char → Int → Int → Int → Int → List Char →
    Except PyExn (List (List Char × List Char))
  | [], _, _, _, _, _ => .ok []
  | c :: rest, d1, d2, d3, d4, acc =>
    if c = ',' ∧ d1 = 0 ∧ d2 = 0 ∧ d3 = 0 ∧ d4 = 0 then
      match (acc.reverse).splitOn '=' with
      | [k, v] => do
        let t ← withSplitGo rest d1 d2 d3 d4 []
        .ok ((pyStrip k, pyStrip v) :: t)
      | _ => .error .valueError
    else if c = '<' then withSplitGo rest (d1 + 1) d2 d3 d4 (c :: acc)
    else if c = '[' then withSplitGo rest d1 (d2 + 1) d3 d4 (c :: acc)
    else if c = '{' then withSplitGo rest d1 d2 (d3 + 1) d4 (c :: acc)
    else if c = '(' then withSplitGo rest d1 d2 d3 (d4 + 1) (c :: acc)
    else if c = '>' then withSplitGo rest (d1 - 1) d2 d3 d4 (c :: acc)
    else if c = ']' then withSplitGo rest d1 (d2 - 1) d3 d4 (c :: acc)
    else if c = '}' then withSplitGo rest d1 d2 (d3 - 1) d4 (c :: acc)
    else if c = ')' then withSplitGo rest d1 d2 d3 (d4 - 1) (c :: acc)
    else withSplitGo rest d1 d2 d3 d4 (c :: acc)

/-- Beautifier._parse_with_stmts(code): find the first with-statement; if
absent the token list is empty, otherwise split the captured group at
depth-zero commas (with a trailing synthetic comma) into key = value
pairs.  A malformed entry raises ValueError (tuple unpacking of split). -/
def parseWithStmts (code : List Char) : Except PyExn (List (List Char × List Char)) :=
  match findWithMatch code with
  | none => .ok []
  | some (_, _, g) => withSplitGo (g ++ [',']) 0 0 0 0 []

example : parseWithStmts "Type<T> [with T = int]".data = .ok [("T".data, "int".data)] := by decide
example : parseWithStmts "Type<T, U> [with T = A<int, char>, U = long]".data =
    .ok [("T".data, "A<int, char>".data), ("U".data, "long".data)] := by decide
example : parseWithStmts "Type<T> [with T int]".data = .error .valueError := by decide
example : parseWithStmts "plain text".data = .ok [] := by decide

/-- The normalization of segments[0] at the top of the two-plus-segments
case of parse_line: an "In file included from" segment is rebuilt from its
whitespace words with the first four dropped and the rest joined with the
empty string; a segment whose first four characters are "from" loses its
first five characters. -/
def normalizeS0 (s0x : List Char) : List Char :=
  if containsSub "In file included from".data s0x then
    joinSep [] ((pySplitWs s0x).drop 4)
  else if s0x.take 4 = "from".data then s0x.drop 5
  else s0x

/-- The body of the re.match(line, segments[1]) branch of parse_line, after
int(segments[1]) has produced n: dispatch on "error" membership /
segments[2] / segments[3] to set the kind, the optional column and the
message.  segments is the full (mutated) segment list. -/
def parseLineNum (msgParse : List (List Char) → Except PyExn MsgA)
    (line2 : List Char) (a1 : PAttrs) (segments : List (List Char)) (s1 : List Char) :
    Except PyExn (List Char × PAttrs) :=
  match pyInt s1 with
  | .error e => .error e
  | .ok n =>
    let a2 := { a1 with line := n }
    if segments.contains "error".data ∧ 2 < segments.length then
      let a3 := { a2 with type := some 1 }
      if segments.get? 2 = some "error".data then
        match msgParse (segments.drop 3) with
        | .error e => .error e
        | .ok m => .ok (line2, { a3 with message := m })
      else
        match segments.get? 3 with
        | none => .error .indexError
        | some s3 =>
          if s3 = "error".data then
            if matchLinePat (segments.getD 2 []) then
              match pyInt (segments.getD 2 []) with
              | .error e => .error e
              | .ok cn =>
                match msgParse (segments.drop 4) with
                | .error e => .error e
                | .ok m => .ok (line2, { a3 with column := cn, message := m })
            else
              match msgParse (segments.drop 4) with
              | .error e => .error e
              | .ok m => .ok (line2, { a3 with message := m })
          else .ok (line2, a3)
    else
      match segments.get? 2 with
      | none => .error .indexError
      | some s2 =>
        if s2 = "warning".data then
          match msgParse (segments.drop 3) with
          | .error e => .error e
          | .ok m => .ok (line2, { a2 with type := some 2, message := m })
        else if s2 = "note".data then
          match msgParse (segments.drop 3) with
          | .error e => .error e
          | .ok m => .ok (line2, { a2 with type := some 4, message := m })
        else
          match msgParse (segments.drop 2) with
          | .error e => .error e
          | .ok m => .ok (line2, { a2 with type := some 4, message := m })

/-- The two-plus-segments case of parse_line, with segments[0] already
normalized to s0: dispatch on collect2 / file pattern / linker pattern /
line number / free text. -/
def parseTwoPlus (msgParse : List (List Char) → Except PyExn MsgA)
    (line2 : List Char) (a : PAttrs) (s0 s1 : List Char) (rest2 : List (List Char)) :
    Except PyExn (List Char × PAttrs) :=
  if s0 = "collect2".data then .ok (line2, { a with type := some 3 })
  else if matchFile s0 then
    let a1 := { a with file := s0, sysFile := some (matchSysPre s0) }
    if matchLinker s1 then
      match msgParse rest2 with
      | .error e => .error e
      | .ok m => .ok (line2, { a1 with type := some 2, message := m })
    else if matchLinePat s1 then
      parseLineNum msgParse line2 a1 (s0 :: s1 :: rest2) s1
    else if matchMsg s1 then
      match msgParse (s1 :: rest2) with
      | .error e => .error e
      | .ok m => .ok (line2, { a1 with type := some 4, message := m })
    else .ok (line2, a1)
  else .ok (line2, a)

/-- parse_line after the line has been (re)stored and stripped: split into
segments and dispatch on their number. -/
def parseLineSeg (msgParse : List (List Char) → Except PyExn MsgA)
    (line2 : List Char) (a0 : PAttrs) : Except PyExn (List Char × PAttrs) :=
  let a := { a0 with raw := line2 }
  match (splitSegs line2).map pyStrip with
  | [] => .ok (line2, a)
  | [s] =>
    match msgParse [s] with
    | .error e => .error e
    | .ok m =>
      .ok (line2, { a with file := "<unknown>".data, type := some 4, message := m })
  | s0x :: s1 :: rest2 => parseTwoPlus msgParse line2 a (normalizeS0 s0x) s1 rest2

/-- Parser.parse_line modeled as a function of the stored line (self._line),
the optional argument, the current attributes dictionary (self._attributes,
which Parser never resets between calls) and the message-building method
(overridden by Beautifier).  Returns the new stored line together with the
attributes dictionary that parse_line returns.  List indexing beyond the
end raises IndexError; int() raises ValueError; both abort. -/
def parseLineCore (msgParse : List (List Char) → Except PyExn MsgA)
    (stLine arg : List Char) (a0 : PAttrs) : Except PyExn (List Char × PAttrs) :=
  parseLineSeg msgParse (pyStrip (if arg ≠ [] ∧ arg ≠ stLine then arg else stLine)) a0

/-- The plain parser's message builder wrapped in Except (it cannot raise). -/
def msgP (segments : List (List Char)) : Except PyExn MsgA := .ok (parseMessageP segments)

/-- Beautifier._parse_message: the parser's result with with_tokens computed
for every code fragment (this is where a malformed with-clause raises). -/
def msgB (segments : List (List Char)) : Except PyExn MsgA := do
  let m := parseMessageP segments
  let cl ← m.codelist.mapM (fun c => do
    let t ← parseWithStmts c.raw
    pure { c with withTokens := some t })
  pure { m with codelist := cl }

/-- Classifying one line on a fresh Parser instance: Parser(line) followed by
parse_line(), per the second usage pattern in the class docstring. -/
def parseLineFresh (line : List Char) : Except PyExn PAttrs :=
  (parseLineCore msgP line [] (defaultAttrs line)).map (fun x => x.2)

/-- Classifying one line on a fresh Beautifier instance (parse_line with the
overridden _parse_message). -/
def beautParse (line : List Char) : Except PyExn PAttrs :=
  (parseLineCore msgB line [] (defaultAttrs line)).map (fun x => x.2)

example : parseLineFresh "foo.cpp:10".data = .error .indexError := by decide
example : parseLineFresh "".data =
    .ok { raw := [], type := some 4, file := "<unknown>".data, line := -1, column := -1,
          sysFile := none, message := { raw := [], codelist := [{ raw := [], withTokens := none }] } } := by
  decide
example : parseLineFresh "collect2: ld returned 1 exit status".data =
    .ok { raw := "collect2: ld returned 1 exit status".data, type := some 3, file := [],
          line := -1, column := -1, sysFile := none,
          message := { raw := [], codelist := [] } } := by decide

/-- Beautifier._str_types in source (insertion) order: verbose basic_*
instantiation patterns, with a %s placeholder for the character type, and
their canonical short names. -/
def strTypes : List (List Char × List Char) :=
  [("basic_ios<%s, char_traits<%s>>".data, "ios".data),
   ("basic_streambuf<%s, char_traits<%s>>".data, "streambuf".data),
   ("basic_istream<%s, char_traits<%s>>".data, "istream".data),
   ("basic_ostream<%s, char_traits<%s>>".data, "ostream".data),
   ("basic_iostream<%s, char_traits<%s>>".data, "iostream".data),
   ("basic_ifstream<%s, char_traits<%s>>".data, "ifstream".data),
   ("basic_ofstream<%s, char_traits<%s>>".data, "ofstream".data),
   ("basic_fstream<%s, char_traits<%s>>".data, "fstream".data),
   ("basic_istringstream<%s, char_traits<%s>, allocator<%s>>".data, "istringstream".data),
   ("basic_ostringstream<%s, char_traits<%s>, allocator<%s>>".data, "ostringstream".data),
   ("basic_stringstream<%s, char_traits<%s>, allocator<%s>>".data, "stringstream".data),
   ("basic_string<%s, char_traits<%s>, allocator<%s>>".data, "string".data)]

/-- Beautifier._char_types. -/
def charTypes : List (List Char) := ["char".data, "wchar_t".data]

/-- Beautifier._replacements in source (insertion) order: per-container
fully-defaulted forms and the value_type idiom. -/
def replTable : List (List Char × List (List Char × List Char)) :=
  [("vector".data,
    [("vector<%s, allocator<%s>>".data, "vector<%s>".data),
     ("typename vector<%s>::value_type".data, "%s".data)]),
   ("list".data,
    [("list<%s, allocator<%s>>".data, "list<%s>".data),
     ("typename list<%s>::value_type".data, "%s".data)]),
   ("queue".data,
    [("queue<%s, deque<%s>>".data, "queue<%s>".data),
     ("typename queue<%s>::value_type".data, "%s".data)]),
   ("deque".data,
    [("deque<%s, allocator<%s>>".data, "deque<%s>".data),
     ("typename deque<%s>::value_type".data, "%s".data)]),
   ("stack".data,
    [("stack<%s, deque<%s>>".data, "stack<%s>".data),
     ("typename stack<%s>::value_type".data, "%s".data)]),
   ("set".data,
    [("set<%s, less<%s>, allocator<%s>>".data, "set<%s>".data),
     ("typename set<%s>::value_type".data, "%s".data)])]

/-- One entry of the Beautifier._compact_typedefs loop: for each character
kind instantiate the pattern and, if present in the text, replace it with
the canonical name (prefixed with w for the wide kind). -/
def compactStep (msg : List Char) (e : List Char × List Char) : List Char :=
  charTypes.foldl
    (fun m c =>
      let tp := replaceAll "%s".data c e.1
      if containsSub tp m then
        let r := if c.head? = some 'w' then 'w' :: e.2 else e.2
        replaceAll tp r m
      else m)
    msg

/-- Beautifier._compact_typedefs(message). -/
def compactTypedefs (msg : List Char) : List Char := strTypes.foldl compactStep msg

/-- First index at which p occurs in s (Python str.find; callers guard with
a containment test first, so the not-found value is never used). -/
def indexOfSub (p : List Char) : List Char → Nat
  | [] => 0
  | c :: cs => if p.isPrefixOf (c :: cs) then 0 else 1 + indexOfSub p cs

/-- One entry of the Beautifier._parse_templates loop: if the container
name occurs, extract the first template argument with _next_token starting
just after the name and its opening bracket, and if a nonempty token came
back replace each instantiated (full, small) pair. -/
def tmplStep (msg : List Char) (e : List Char × List (List Char × List Char)) : List Char :=
  if containsSub e.1 msg then
    let begin := indexOfSub e.1 msg + e.1.length + 1
    match nextToken msg begin with
    | some tp =>
      if tp ≠ [] then
        e.2.foldl
          (fun m fs =>
            replaceAll (replaceAll "%s".data tp fs.1) (replaceAll "%s".data tp fs.2) m)
          msg
      else msg
    | none => msg
  else msg

/-- Beautifier._parse_templates(message). -/
def parseTemplates (msg : List Char) : List Char := replTable.foldl tmplStep msg

/-- The LV_NORMAL block of Beautifier.build applied to a fragment's working
text, given its with_tokens: substitute each key by its value in discovery
order, delete every with-statement, strip, collapse doubled closing angle
brackets, drop the std:: and __gnu_cxx:: prefixes, compact typedefs,
elide container default arguments. -/
def fragNormal (toks : List (List Char × List Char)) (f : List Char) : List Char :=
  let fw := pyStrip (subWithAll (toks.foldl (fun m kv => replaceAll kv.1 kv.2 m) f))
  parseTemplates (compactTypedefs (replaceAll "__gnu_cxx::".data [] (replaceAll "std::".data [] (collapseGtGt fw))))

/-- The LV_MODERATE fragment rewrites of Beautifier.build: drop the
boost::detail:: and boost:: prefixes. -/
def fragModerate (f : List Char) : List Char :=
  replaceAll "boost::".data [] (replaceAll "boost::detail::".data [] f)

/-- The per-fragment rewrite pipeline of Beautifier.build (the spec's
beautify(fragment, level)): parse the with-statement tokens from the
fragment text — this happens in Beautifier._parse_message at parse time,
at every level, and can raise — then apply the level-gated rewrites to the
working copy.  Level codes follow the source: 0 = LV_NONE, 1 = LV_NORMAL,
2 = LV_MODERATE, 3 = LV_HIGH, 4 = LV_ALL. -/
def beautifyFragment (raw : List Char) (lvl : Nat) : Except PyExn (List Char) :=
  match parseWithStmts raw with
  | .error e => .error e
  | .ok toks =>
    if lvl = 0 then .ok raw
    else
      let f1 := if 1 ≤ lvl then fragNormal toks raw else raw
      .ok (if 2 ≤ lvl then fragModerate f1 else f1)

example : beautifyFragment "Type<T> [with T = int]".data 1 = .ok "intype<int>".data := by decide
example : beautifyFragment "vector<int, allocator<int>>".data 1 = .ok "vector<int>".data := by decide
example : beautifyFragment "basic_string<char, char_traits<char>, allocator<char>>".data 1 =
    .ok "string".data := by decide
example : beautifyFragment "std::basic_string<wchar_t, std::char_traits<wchar_t>, std::allocator<wchar_t> >".data 1 =
    .ok "wstring".data := by decide
example : beautifyFragment "stdstd::::x".data 1 = .ok "std::x".data := by decide
example : beautifyFragment "std::x".data 1 = .ok "x".data := by decide

/-- The for-loop of Beautifier.build over the message's code fragments.
result is self._result (initially the constructor line, verbatim).  Every
fragment's formatted text starts from its raw text; at LV_NORMAL and above
the fragment is rewritten; at LV_MODERATE and above the line has the
system-file segments stripped and, if what remains starts with "error: ",
build returns the empty string at once (modeled as none); afterwards the
fragment's raw occurrences inside the line are replaced by its formatted
text.  none models the early return of the empty string. -/
def buildLoop (lvl : Nat) : List CodeFrag → List Char → Option (List Char)
  | [], result => some result
  | c :: cs, result =>
    let f0 := c.raw
    let f1 :=
      if 1 ≤ lvl then
        let fw := match c.withTokens with
          | some toks => fragNormal toks f0
          | none =>
            parseTemplates (compactTypedefs (replaceAll "__gnu_cxx::".data []
              (replaceAll "std::".data [] (collapseGtGt f0))))
        fw
      else f0
    if 2 ≤ lvl then
      let result1 := subSysAll result
      if "error: ".data.isPrefixOf result1 then none
      else
        let f2 := fragModerate f1
        buildLoop lvl cs (replaceAll c.raw f2 result1)
    else buildLoop lvl cs (replaceAll c.raw f1 result)

/-- Beautifier: parse_line followed by build, with wrapping disabled (the
wrap service is outside the core per the spec; Beautifier(line, level,
width, wrap=False) sets self._wrapper to None and build skips the fill
step).  After the loop the result is stripped and suppressed entirely if it
starts with "from", "note: previous definition" or
"In file included from".  At LV_NONE build returns the constructor line
untouched (but parse_line has already run and may have raised). -/
def buildFull (line : List Char) (lvl : Nat) : Except PyExn (List Char) :=
  match beautParse line with
  | .error e => .error e
  | .ok a =>
    if lvl = 0 then .ok line
    else
      match buildLoop lvl a.message.codelist line with
      | none => .ok []
      | some r =>
        let r1 := pyStrip r
        if "from".data.isPrefixOf r1 ∨ "note: previous definition".data.isPrefixOf r1 ∨
            "In file included from".data.isPrefixOf r1 then .ok []
        else .ok r1

example : buildFull "/usr/include/x.h:5: error: oops".data 2 = .ok [] := by decide
example : buildFull "Type<T> [with T = int]".data 1 = .ok "intype<int>".data := by decide

/-- ASCII apostrophe (kept out of string literals). -/
def asciiQ : Char := Char.ofNat 39

/-- The round-trip input of the spec written with ASCII apostrophes, as the
claim prints it. -/
def c6ascii : List Char :=
  "foo.cpp:10:5: error: ".data ++ [asciiQ, 'x', asciiQ] ++ " was not declared in this scope".data

/-- The same diagnostic with gcc's typographic quotes, which are what the
code-fragment regex of Parser._parse_message actually matches. -/
def c6typo : List Char :=
  "foo.cpp:10:5: error: ".data ++ [openQ, 'x', closeQ] ++ " was not declared in this scope".data

/-- C1: the spec claims classify is total and never raises, but
Parser.parse_line evaluates segments[2] under a guard that only ensures two
segments exist: the two-segment line foo.cpp:10 reaches
segments[2] == "warning" and raises IndexError. -/
theorem c1_parse_line_raises :
    parseLineFresh "foo.cpp:10".data = .error .indexError := by decide

/-- C2: the with-clause round trip of the fragment Type<T> [with T = int]
at LV_NORMAL.  Because the substitution is a plain substring replacement,
the T inside Type is rewritten as well, so the result is intype<int>, not
the Type<int> promised by the claim and by the module docstring of
beautifier.py. -/
theorem c2_with_round_trip_clobbers :
    beautifyFragment "Type<T> [with T = int]".data 1 = .ok "intype<int>".data ∧
    "intype<int>".data ≠ "Type<int>".data := ⟨by decide, by decide⟩

/-- C3: a with-clause entry without exactly one equals sign is not skipped:
the tuple unpacking key, value = entry.split("=") in
Beautifier._parse_with_stmts raises ValueError, aborting the whole line
(shown both on the bare fragment and on a full diagnostic line going
through Beautifier's parse_line). -/
theorem c3_malformed_with_entry_raises :
    parseWithStmts "Type<T> [with T int]".data = .error .valueError ∧
    beautParse "x.cpp:3: error: bad Type<T> [with T int] here".data = .error .valueError :=
  ⟨by decide, by decide⟩

/-- C5: a collect2 line gets kind Message but Parser.parse_line never
assigns the message on that branch, so the message keeps its default empty
raw text and empty code list — not the remaining segments joined (which
would be the nonempty text ld returned 1 exit status). -/
theorem c5_collect2_message_empty :
    parseLineFresh "collect2: ld returned 1 exit status".data =
      .ok { raw := "collect2: ld returned 1 exit status".data, type := some 3, file := [],
            line := -1, column := -1, sysFile := none,
            message := { raw := [], codelist := [] } } ∧
    "ld returned 1 exit status".data ≠ ([] : List Char) := ⟨by decide, by decide⟩

/-- C6 counterexample: on the claim's input written with ASCII apostrophes
the quoted-code regex (which matches typographic quotes only) finds
nothing, so the whole message text becomes the single code fragment — the
fragment is not the one-character x the claim states. -/
theorem c6_counterexample :
    (parseLineFresh c6ascii).map (fun a => a.message.codelist.map (fun c => c.raw)) =
      .ok [[asciiQ, 'x', asciiQ] ++ " was not declared in this scope".data] ∧
    [asciiQ, 'x', asciiQ] ++ " was not declared in this scope".data ≠ ['x'] :=
  ⟨by decide, by decide⟩

/-- C6 amended: with gcc's typographic quotes the round trip holds exactly:
kind Error, file foo.cpp, line 10, column 5, the message raw text with the
location fields stripped, and one code fragment x. -/
theorem c6_classify_round_trip :
    parseLineFresh c6typo =
      .ok { raw := c6typo, type := some 1, file := "foo.cpp".data, line := 10, column := 5,
            sysFile := some false,
            message := { raw := [openQ, 'x', closeQ] ++ " was not declared in this scope".data,
                         codelist := [{ raw := ['x'], withTokens := none }] } } := by decide

/-- The two-call reuse scenario of C8: one Parser instance classifies
foo.cpp:10: error: bad and then hello, per the first usage pattern in the
class docstring (the attributes dictionary is never reset between calls). -/
def c8reuse : Except PyExn (List Char × PAttrs) := do
  let r1 ← parseLineCore msgP "foo.cpp:10: error: bad".data [] (defaultAttrs "foo.cpp:10: error: bad".data)
  parseLineCore msgP r1.1 "hello".data r1.2

/-- C8: classifying hello on a reused instance keeps the previous line's
line number 10 (and its sys_file entry), while a fresh instance reports the
absent sentinel -1 — the two records differ, contradicting the class
docstring's promise that both usage patterns give identical results. -/
theorem c8_instance_reuse_differs :
    c8reuse =
      .ok ("hello".data,
        { raw := "hello".data, type := some 4, file := "<unknown>".data, line := 10,
          column := -1, sysFile := some false,
          message := { raw := "hello".data,
                       codelist := [{ raw := "hello".data, withTokens := none }] } }) ∧
    parseLineFresh "hello".data =
      .ok { raw := "hello".data, type := some 4, file := "<unknown>".data, line := -1,
            column := -1, sysFile := none,
            message := { raw := "hello".data,
                         codelist := [{ raw := "hello".data, withTokens := none }] } } :=
  ⟨by decide, by decide⟩

/-- C4 counterexample: the system-header error line has the nonempty
remainder error: oops after stripping (oops follows the error: marker), yet
build at LV_MODERATE suppresses it entirely, because the source tests
startswith("error: ") rather than equality with "error: ". -/
theorem c4_counterexample :
    buildFull "/usr/include/x.h:5: error: oops".data 2 = .ok [] ∧
    subSysAll "/usr/include/x.h:5: error: oops".data = "error: oops".data ∧
    "oops".data ≠ ([] : List Char) := ⟨by decide, by decide, by decide⟩

/-- C4 amended: at LV_MODERATE and above, whenever the parsed message has at
least one code fragment, the line is suppressed (empty result) as soon as
the line with its system-file segments stripped merely starts with
"error: " — whatever follows — because build tests startswith, not
equality with the bare marker.  (The check sits inside the per-fragment
loop, so it requires at least one fragment.) -/
theorem c4_moderate_error_suppression (line : List Char) (lvl : Nat) (a : PAttrs)
    (hl : 2 ≤ lvl) (hp : beautParse line = .ok a) (hc : a.message.codelist ≠ [])
    (hs : "error: ".data.isPrefixOf (subSysAll line) = true) :
    buildFull line lvl = .ok [] := by
  have hl0 : ¬ lvl = 0 := by omega
  obtain ⟨c, cs, hcl⟩ := List.exists_cons_of_ne_nil hc
  have hnone : buildLoop lvl a.message.codelist line = none := by
    rw [hcl]
    simp [buildLoop, hl, hs]
  unfold buildFull
  simp [hp, hl0, hnone]

/-- The C4 witness line and its parsed attributes. -/
def c4line : List Char := "/usr/include/x.h:5: error: oops".data

def c4attrs : PAttrs :=
  { raw := c4line, type := some 1, file := "/usr/include/x.h".data, line := 5, column := -1,
    sysFile := some false,
    message := { raw := "oops".data, codelist := [{ raw := "oops".data, withTokens := some [] }] } }

/-- C4 witness: the hypotheses of the amended suppression theorem hold at a
concrete system-header error line, and the theorem suppresses it. -/
theorem c4_witness :
    2 ≤ 2 ∧ beautParse c4line = .ok c4attrs ∧ c4attrs.message.codelist ≠ [] ∧
    "error: ".data.isPrefixOf (subSysAll c4line) = true ∧ buildFull c4line 2 = .ok [] :=
  ⟨by decide, by decide, by decide, by decide,
   c4_moderate_error_suppression c4line 2 c4attrs (by decide) (by decide) (by decide) (by decide)⟩

/-- Transitivity of the boolean prefix test. -/
theorem isPrefixOf_trans {p q s : List Char} (h1 : p.isPrefixOf q = true)
    (h2 : q.isPrefixOf s = true) : p.isPrefixOf s = true := by
  rw [List.isPrefixOf_iff_prefix] at *
  exact h1.trans h2

/-- A string containing no occurrence of a pattern contains no occurrence of
any extension of that pattern. -/
theorem containsSub_mono {p q s : List Char} (hpq : p.isPrefixOf q = true)
    (h : containsSub p s = false) : containsSub q s = false := by
  induction s with
  | nil =>
    simp only [containsSub] at h ⊢
    cases hq : q.isPrefixOf [] with
    | false => rfl
    | true => rw [isPrefixOf_trans hpq hq] at h; exact h
  | cons c cs ih =>
    simp only [containsSub, Bool.or_eq_false_iff] at h ⊢
    refine ⟨?_, ih h.2⟩
    cases hq : q.isPrefixOf (c :: cs) with
    | false => rfl
    | true => rw [isPrefixOf_trans hpq hq] at h; exact h.1

/-- If the pattern does not occur, it is in particular not a prefix. -/
theorem not_isPrefixOf_of_not_contains {p s : List Char}
    (h : containsSub p s = false) : p.isPrefixOf s = false := by
  cases s with
  | nil => simpa [containsSub] using h
  | cons c cs =>
    simp only [containsSub, Bool.or_eq_false_iff] at h
    exact h.1

/-- str.replace is the identity when the pattern does not occur. -/
theorem replAux_of_not_contains {p r : List Char} (fuel : Nat) :
    ∀ s : List Char, containsSub p s = false → replAux p r fuel s = s := by
  induction fuel with
  | zero => intro s _; rfl
  | succ n ih =>
    intro s h
    cases s with
    | nil =>
      simp only [replAux]
      rw [not_isPrefixOf_of_not_contains h]
      simp
    | cons c cs =>
      simp only [replAux]
      rw [not_isPrefixOf_of_not_contains h]
      simp only [Bool.false_eq_true, if_false]
      simp only [containsSub, Bool.or_eq_false_iff] at h
      rw [ih cs h.2]

theorem replaceAll_of_not_contains {p r s : List Char} (hp : p ≠ [])
    (h : containsSub p s = false) : replaceAll p r s = s := by
  unfold replaceAll
  rw [if_neg hp]
  exact replAux_of_not_contains _ s h

/-- The angle-bracket collapsing loop is the identity when no doubled
closing bracket occurs. -/
theorem collapseGtGt_of_not_contains {s : List Char}
    (h : containsSub ('>' :: ' ' :: ['>']) s = false) : collapseGtGt s = s := by
  unfold collapseGtGt
  rw [gtGtAux, h]
  simp

/-- The with-statement search fails when the literal [with does not occur. -/
theorem findWithMatch_of_not_contains {s : List Char}
    (h : containsSub "[with".data s = false) : findWithMatch s = none := by
  induction s with
  | nil => rfl
  | cons c cs ih =>
    simp only [containsSub, Bool.or_eq_false_iff] at h
    rw [findWithMatch]
    rw [h.1]
    simp only [Bool.false_eq_true, if_false]
    rw [ih h.2]
    rfl

theorem subWithAll_of_not_contains {s : List Char}
    (h : containsSub "[with".data s = false) : subWithAll s = s := by
  unfold subWithAll
  rw [subWithAux, findWithMatch_of_not_contains h]

theorem parseWithStmts_of_not_contains {s : List Char}
    (h : containsSub "[with".data s = false) : parseWithStmts s = .ok [] := by
  unfold parseWithStmts
  rw [findWithMatch_of_not_contains h]

/-- A fold is the identity when every step fixes the accumulator. -/
theorem foldl_fix {β : Type} (l : List β) (f : List Char → β → List Char) (x : List Char)
    (h : ∀ b ∈ l, f x b = x) : l.foldl f x = x := by
  induction l with
  | nil => rfl
  | cons b bs ih =>
    rw [List.foldl_cons, h b (List.mem_cons_self b bs)]
    exact ih (fun e he => h e (List.mem_cons_of_mem b he))

/-- Every instantiated typedef pattern of Beautifier._str_types starts with
the literal basic_. -/
theorem strTypes_start_basic :
    ∀ e ∈ strTypes, ∀ c ∈ charTypes, "basic_".data.isPrefixOf (replaceAll "%s".data c e.1) = true := by
  decide

/-- Every container key of Beautifier._replacements is one of the six known
names. -/
theorem replTable_keys :
    ∀ e ∈ replTable, e.1 = "vector".data ∨ e.1 = "list".data ∨ e.1 = "queue".data ∨
      e.1 = "deque".data ∨ e.1 = "stack".data ∨ e.1 = "set".data := by
  decide

/-- A fragment already free of every rewritable pattern: no with-statement,
already stripped, no doubled closing bracket, none of the removable
prefixes, no basic_* typedef instantiation and no known container name. -/
def cleanFrag (s : List Char) : Bool :=
  !containsSub "[with".data s && (pyStrip s == s) && !containsSub ('>' :: ' ' :: ['>']) s &&
  !containsSub "std::".data s && !containsSub "__gnu_cxx::".data s &&
  !containsSub "basic_".data s && !containsSub "boost::".data s &&
  !containsSub "vector".data s && !containsSub "list".data s && !containsSub "queue".data s &&
  !containsSub "deque".data s && !containsSub "stack".data s && !containsSub "set".data s

/-- _compact_typedefs is the identity on text without basic_. -/
theorem compactTypedefs_of_clean {s : List Char}
    (h : containsSub "basic_".data s = false) : compactTypedefs s = s := by
  unfold compactTypedefs
  refine foldl_fix _ _ _ (fun e he => ?_)
  unfold compactStep
  refine foldl_fix _ _ _ (fun c hc => ?_)
  have hcc := containsSub_mono (strTypes_start_basic e he c hc) h
  simp [hcc]

/-- _parse_templates is the identity on text without any container name. -/
theorem parseTemplates_of_clean {s : List Char}
    (hv : containsSub "vector".data s = false) (hl : containsSub "list".data s = false)
    (hq : containsSub "queue".data s = false) (hd : containsSub "deque".data s = false)
    (hk : containsSub "stack".data s = false) (he : containsSub "set".data s = false) :
    parseTemplates s = s := by
  unfold parseTemplates
  refine foldl_fix _ _ _ (fun e hm => ?_)
  unfold tmplStep
  rcases replTable_keys e hm with h | h | h | h | h | h <;>
    rw [h] <;> simp [hv, hl, hq, hd, hk, he]

/-- The whole per-fragment pipeline fixes any clean fragment, at every
level. -/
theorem beautifyFragment_clean_fix (s : List Char) (lvl : Nat) (h : cleanFrag s = true) :
    beautifyFragment s lvl = .ok s := by
  unfold cleanFrag at h
  simp only [Bool.and_eq_true, Bool.not_eq_true', beq_iff_eq] at h
  obtain ⟨⟨⟨⟨⟨⟨⟨⟨⟨⟨⟨⟨hw, hst⟩, hgt⟩, hsd⟩, hgn⟩, hb⟩, hbo⟩, hv⟩, hl⟩, hq⟩, hd⟩, hk⟩, hse⟩ := h
  unfold beautifyFragment
  rw [parseWithStmts_of_not_contains hw]
  by_cases h0 : lvl = 0
  · simp [h0]
  · have h1 : 1 ≤ lvl := by omega
    have hnorm : fragNormal [] s = s := by
      unfold fragNormal
      simp only [List.foldl_nil, subWithAll_of_not_contains hw, hst,
        collapseGtGt_of_not_contains hgt,
        replaceAll_of_not_contains (by decide) hsd,
        replaceAll_of_not_contains (by decide) hgn,
        compactTypedefs_of_clean hb,
        parseTemplates_of_clean hv hl hq hd hk hse]
    have hmod : fragModerate s = s := by
      unfold fragModerate
      rw [replaceAll_of_not_contains (by decide)
          (containsSub_mono (p := "boost::".data) (by decide) hbo),
        replaceAll_of_not_contains (by decide) hbo]
    by_cases h2 : 2 ≤ lvl
    · simp [h0, h1, h2, hnorm, hmod]
    · simp [h0, h1, h2, hnorm]

/-- C7 counterexample: beautification is not idempotent.  On the fragment
stdstd::::x at LV_NORMAL the first pass removes the inner std:: occurrence
and thereby creates a new one (std::x), which a second pass removes in
turn (x) — re-running the pipeline changes the text. -/
theorem c7_counterexample :
    ¬ ((beautifyFragment "stdstd::::x".data 1).bind (fun t => beautifyFragment t 1) =
        beautifyFragment "stdstd::::x".data 1) := by decide

/-- C7 amended: re-running the per-fragment pipeline is a no-op whenever the
first run's output is clean — trimmed and free of every rewritable pattern
(with-statement, doubled closing bracket, std:: / __gnu_cxx:: / boost::
prefix, basic_* typedef instantiation, known container name).  Without the
cleanliness hypothesis idempotence fails, as a removal can create a new
occurrence of a removable pattern. -/
theorem c7_beautify_idem_clean (f : List Char) (lvl : Nat) (t : List Char)
    (_h1 : beautifyFragment f lvl = .ok t) (h2 : cleanFrag t = true) :
    beautifyFragment t lvl = .ok t :=
  beautifyFragment_clean_fix t lvl h2

/-- C7 witness: the hypotheses hold at the fragment hello (whose beautified
form is itself and is clean), and re-beautifying it changes nothing. -/
theorem c7_witness :
    beautifyFragment "hello".data 1 = .ok "hello".data ∧ cleanFrag "hello".data = true ∧
    beautifyFragment "hello".data 1 = .ok "hello".data :=
  ⟨by decide, by decide,
   c7_beautify_idem_clean "hello".data 1 "hello".data (by decide) (by decide)⟩

/-- Characterization of a successful int() call. -/
theorem pyInt_ok_iff {s : List Char} {n : Int} :
    pyInt s = .ok n ↔ (pyIntValid s = true ∧ n = (pyIntNat s : Int)) := by
  by_cases hv : pyIntValid s = true
  · simp [pyInt, hv, eq_comm]
  · simp [pyInt, hv]

/-- In every successful branch of the line-number block, a recorded column
implies a recorded line number and the Error kind: the only assignment to
column happens after line has been set from int(segments[1]) (hence is
nonnegative) and the kind has been set to LT_ERROR. -/
theorem parseLineNum_column
    (msgParse : List (List Char) → Except PyExn MsgA)
    (line2 : List Char) (a1 : PAttrs) (segments : List (List Char)) (s1 : List Char)
    (h0 : a1.column = -1) (p : List Char × PAttrs)
    (h : parseLineNum msgParse line2 a1 segments s1 = .ok p) (hc : p.2.column ≠ -1) :
    p.2.line ≠ -1 ∧ p.2.type = some 1 := by
  simp only [parseLineNum] at h
  repeat' split at h
  all_goals
    first
    | (injection h with h; subst h; simp_all [pyInt_ok_iff])
    | simp at h

/-- The same invariant for the whole two-plus-segments dispatch. -/
theorem parseTwoPlus_column
    (msgParse : List (List Char) → Except PyExn MsgA)
    (line2 : List Char) (a : PAttrs) (s0 s1 : List Char) (rest2 : List (List Char))
    (h0 : a.column = -1) (p : List Char × PAttrs)
    (h : parseTwoPlus msgParse line2 a s0 s1 rest2 = .ok p) (hc : p.2.column ≠ -1) :
    p.2.line ≠ -1 ∧ p.2.type = some 1 := by
  simp only [parseTwoPlus] at h
  repeat' split at h
  all_goals
    first
    | exact parseLineNum_column msgParse line2 _ _ s1 (by simp [h0]) p h hc
    | (injection h with h; subst h; simp_all)
    | simp at h

/-- The invariant for parse_line as a whole, for any message parser and any
starting attributes dictionary without a recorded column. -/
theorem parseLineCore_column_aux
    (msgParse : List (List Char) → Except PyExn MsgA)
    (stLine arg : List Char) (a0 : PAttrs) (h0 : a0.column = -1)
    (p : List Char × PAttrs)
    (hcore : parseLineCore msgParse stLine arg a0 = .ok p) (hc : p.2.column ≠ -1) :
    p.2.line ≠ -1 ∧ p.2.type = some 1 := by
  simp only [parseLineCore, parseLineSeg] at hcore
  repeat' split at hcore
  all_goals
    first
    | exact parseTwoPlus_column msgParse _ _ _ _ _ (by simp [h0]) p hcore hc
    | (injection hcore with h; subst h; simp_all)
    | simp at hcore

/-- C10: for a line classified on a fresh instance, a present column number
(not the -1 sentinel) implies a present line number and kind Error — the
column is only ever recorded on the error-with-column branch. -/
theorem c10_column_requires_error (l : List Char) (a : PAttrs)
    (hp : parseLineFresh l = .ok a) (hc : a.column ≠ -1) :
    a.line ≠ -1 ∧ a.type = some 1 := by
  unfold parseLineFresh at hp
  cases hcore : parseLineCore msgP l [] (defaultAttrs l) with
  | error e => rw [hcore] at hp; simp [Except.map] at hp
  | ok p =>
    rw [hcore] at hp
    simp only [Except.map] at hp
    injection hp with hp
    subst hp
    exact parseLineCore_column_aux msgP l [] (defaultAttrs l) rfl p hcore hc

/-- The C10 witness line and its parsed record. -/
def c10line : List Char := "foo.cpp:12:7: error: boom".data

def c10attrs : PAttrs :=
  { raw := c10line, type := some 1, file := "foo.cpp".data, line := 12, column := 7,
    sysFile := some false,
    message := { raw := "boom".data, codelist := [{ raw := "boom".data, withTokens := none }] } }

/-- C10 witness: a concrete error line with a column satisfies the
invariant's hypotheses, and the invariant yields its conclusion there. -/
theorem c10_witness :
    parseLineFresh c10line = .ok c10attrs ∧ c10attrs.column ≠ -1 ∧
    (c10attrs.line ≠ -1 ∧ c10attrs.type = some 1) :=
  ⟨by decide, by decide,
   c10_column_requires_error c10line c10attrs (by decide) (by decide)⟩

/-- Net nesting count of an opener/closer pair over a scanned prefix (the
value of the corresponding counter of the claim after scanning it). -/
def pairCount (o cl : Char) (cs : List Char) : Int :=
  (cs.countP (fun x => x == o) : Int) - (cs.countP (fun x => x == cl) : Int)

/-- All four counters of the claim are zero after scanning cs. -/
def countersZero (cs : List Char) : Bool :=
  pairCount '<' '>' cs == 0 && pairCount '[' ']' cs == 0 &&
  pairCount '{' '}' cs == 0 && pairCount '(' ')' cs == 0

/-- Some counter is negative after scanning cs. -/
def anyNeg (cs : List Char) : Bool :=
  decide (pairCount '<' '>' cs < 0) || decide (pairCount '[' ']' cs < 0) ||
  decide (pairCount '{' '}' cs < 0) || decide (pairCount '(' ')' cs < 0)

/-- Position i of w is a token end per the claim: the character there is a
comma or an equals sign and all four counters are zero over the prefix
before it. -/
def specGoodAt (w : List Char) (i : Nat) : Bool :=
  match w.get? i with
  | some ch => (ch == ',' || ch == '=') && countersZero (w.take i)
  | none => false

/-- Position i of w makes a counter go negative per the claim: after
processing the character at i some counter is below zero. -/
def specBadAt (w : List Char) (i : Nat) : Bool :=
  decide (i < w.length) && anyNeg (w.take (i + 1))

/-- First position at or after i that either ends the token or drives a
counter negative. -/
def specStopGo (w : List Char) (i : Nat) : Option Nat :=
  if h : i < w.length then
    if specGoodAt w i || specBadAt w i then some i else specStopGo w (i + 1)
  else none
termination_by w.length - i
decreasing_by simp_wf; omega

/-- Outcome of the scan from position i per the claim: the index of the
first delimiter found at depth zero, or no token when a counter goes
negative first or the end of the string is reached. -/
def specResolve (w : List Char) (i : Nat) : Option Nat :=
  match specStopGo w i with
  | some k => if specGoodAt w k then some k else none
  | none => none

/-- The claim's tokenizer contract as a function: the whitespace-trimmed
substring from the scan start up to (but not including) the first comma or
equals sign found while all four counters are zero, absent when a counter
would go negative or when the end of the string is reached without such a
delimiter. -/
def specNextToken (w : List Char) : Option (List Char) :=
  (specResolve w 0).map (fun i => pyStrip (w.take i))

theorem pairCount_nil (o cl : Char) : pairCount o cl [] = 0 := by simp [pairCount]

theorem pairCount_snoc (o cl ch : Char) (p : List Char) :
    pairCount o cl (p ++ [ch]) =
      pairCount o cl p + (if ch = o then 1 else 0) - (if ch = cl then 1 else 0) := by
  unfold pairCount
  rw [List.countP_append, List.countP_append]
  simp [List.countP_cons, beq_iff_eq]
  by_cases h1 : ch = o <;> by_cases h2 : ch = cl <;> simp [h1, h2] <;> omega

theorem anyNeg_nil : anyNeg [] = false := by simp [anyNeg, pairCount_nil]

theorem specResolve_step {w : List Char} {i : Nat} (hi : i < w.length)
    (hg : specGoodAt w i = false) (hb : specBadAt w i = false) :
    specResolve w i = specResolve w (i + 1) := by
  unfold specResolve
  rw [specStopGo, dif_pos hi, hg, hb]
  simp

theorem specResolve_stop_good {w : List Char} {i : Nat} (hi : i < w.length)
    (hg : specGoodAt w i = true) : specResolve w i = some i := by
  unfold specResolve
  rw [specStopGo, dif_pos hi, hg]
  simp [hg]

theorem specResolve_stop_bad {w : List Char} {i : Nat} (hi : i < w.length)
    (hg : specGoodAt w i = false) (hb : specBadAt w i = true) :
    specResolve w i = none := by
  unfold specResolve
  rw [specStopGo, dif_pos hi, hg, hb]
  simp [hg]

theorem specResolve_end {w : List Char} {i : Nat} (hi : ¬ i < w.length) :
    specResolve w i = none := by
  unfold specResolve
  rw [specStopGo, dif_neg hi]

/-- One non-stopping scan step: if position p.length of p ++ c :: rest is
neither a token end nor a counter violation, the scan outcome from that
position is the outcome from the next one, and the tokenizer's state after
consuming c matches the counters over the extended prefix. -/
theorem ntGo_continue (rest p : List Char) (c : Char)
    (hclean : ∀ k, k < p.length →
      specGoodAt (p ++ c :: rest) k = false ∧ specBadAt (p ++ c :: rest) k = false)
    (hgf : specGoodAt (p ++ c :: rest) p.length = false)
    (hbf : specBadAt (p ++ c :: rest) p.length = false)
    (IH : ∀ q : List Char,
      (∀ k, k < q.length → specGoodAt (q ++ rest) k = false ∧ specBadAt (q ++ rest) k = false) →
      ntGo rest (pairCount '<' '>' q) (pairCount '[' ']' q) (pairCount '{' '}' q)
          (pairCount '(' ')' q) q.length = specResolve (q ++ rest) q.length) :
    ntGo rest (pairCount '<' '>' (p ++ [c])) (pairCount '[' ']' (p ++ [c]))
        (pairCount '{' '}' (p ++ [c])) (pairCount '(' ')' (p ++ [c])) (p.length + 1)
      = specResolve (p ++ c :: rest) p.length := by
  have hL1 : (p ++ [c]) ++ rest = p ++ c :: rest := by simp
  have hlen : p.length < (p ++ c :: rest).length := by simp
  have hclean2 : ∀ k, k < (p ++ [c]).length →
      specGoodAt ((p ++ [c]) ++ rest) k = false ∧ specBadAt ((p ++ [c]) ++ rest) k = false := by
    rw [hL1]
    intro k hk
    have hk2 : k < p.length ∨ k = p.length := by simp at hk; omega
    rcases hk2 with hlt | heq
    · exact hclean k hlt
    · rw [heq]; exact ⟨hgf, hbf⟩
  have hrec := IH (p ++ [c]) hclean2
  rw [hL1] at hrec
  have hlen1 : (p ++ [c]).length = p.length + 1 := by simp
  rw [hlen1] at hrec
  rw [hrec]
  exact (specResolve_step hlen hgf hbf).symm

/-- The tokenizer loop computes exactly the claim's position-based scan
outcome: starting with the counters of a clean already-scanned prefix p, it
stops at the first token-end or counter-violation position at or after
p.length. -/
theorem ntGo_spec (w : List Char) : ∀ p : List Char,
    (∀ k, k < p.length →
      specGoodAt (p ++ w) k = false ∧ specBadAt (p ++ w) k = false) →
    ntGo w (pairCount '<' '>' p) (pairCount '[' ']' p) (pairCount '{' '}' p)
        (pairCount '(' ')' p) p.length = specResolve (p ++ w) p.length := by
  induction w with
  | nil =>
    intro p _
    rw [List.append_nil]
    rw [specResolve_end (show ¬ p.length < p.length by omega)]
    rfl
  | cons c rest ih =>
    intro p hclean
    have hlen : p.length < (p ++ c :: rest).length := by simp
    have htake : (p ++ c :: rest).take p.length = p := List.take_left p _
    have htake1 : (p ++ c :: rest).take (p.length + 1) = p ++ [c] := by
      have h1 : ((p ++ [c]) ++ rest).take (p.length + 1) = p ++ [c] :=
        List.take_left' (by simp)
      simpa using h1
    have hget : (p ++ c :: rest).get? p.length = some c := by
      rw [List.get?_append_right (Nat.le_refl p.length)]
      simp
    have hgoodAt : specGoodAt (p ++ c :: rest) p.length =
        ((c == ',' || c == '=') && countersZero p) := by
      simp only [specGoodAt, hget, htake]
    have hbadAt : specBadAt (p ++ c :: rest) p.length = anyNeg (p ++ [c]) := by
      simp only [specBadAt, htake1]
      simp [hlen]
    have hnegp : anyNeg p = false := by
      rcases List.eq_nil_or_concat p with hp | ⟨q, d, hp⟩
      · rw [hp]; exact anyNeg_nil
      · have hl1 : 1 ≤ p.length := by rw [hp]; simp
        have hbk := (hclean (p.length - 1) (by omega)).2
        simp only [specBadAt] at hbk
        rw [show p.length - 1 + 1 = p.length from by omega, htake] at hbk
        simp at hbk
        exact hbk (by omega)
    obtain ⟨hn1, hn2, hn3, hn4⟩ :
        0 ≤ pairCount '<' '>' p ∧ 0 ≤ pairCount '[' ']' p ∧
        0 ≤ pairCount '{' '}' p ∧ 0 ≤ pairCount '(' ')' p := by
      simp only [anyNeg, Bool.or_eq_false_iff, decide_eq_false_iff_not, not_lt] at hnegp
      tauto
    simp only [ntGo]
    by_cases hcond : (c = ',' ∨ c = '=') ∧ pairCount '<' '>' p = 0 ∧
        pairCount '[' ']' p = 0 ∧ pairCount '{' '}' p = 0 ∧ pairCount '(' ')' p = 0
    · rw [if_pos hcond]
      have hgt : specGoodAt (p ++ c :: rest) p.length = true := by
        rw [hgoodAt]
        simp only [countersZero, Bool.and_eq_true, Bool.or_eq_true, beq_iff_eq]
        tauto
      rw [specResolve_stop_good hlen hgt]
    · rw [if_neg hcond]
      have hgf : specGoodAt (p ++ c :: rest) p.length = false := by
        rw [hgoodAt, Bool.eq_false_iff]
        intro hh
        apply hcond
        simp only [countersZero, Bool.and_eq_true, Bool.or_eq_true, beq_iff_eq] at hh
        tauto
      by_cases h1 : c = '<'
      · subst h1
        rw [if_pos rfl]
        have e1 : pairCount '<' '>' (p ++ ['<']) = pairCount '<' '>' p + 1 := by
          rw [pairCount_snoc]; simp
        have e2 : pairCount '[' ']' (p ++ ['<']) = pairCount '[' ']' p := by
          rw [pairCount_snoc]; simp
        have e3 : pairCount '{' '}' (p ++ ['<']) = pairCount '{' '}' p := by
          rw [pairCount_snoc]; simp
        have e4 : pairCount '(' ')' (p ++ ['<']) = pairCount '(' ')' p := by
          rw [pairCount_snoc]; simp
        have hbf : specBadAt (p ++ '<' :: rest) p.length = false := by
          rw [hbadAt]
          simp only [anyNeg, e1, e2, e3, e4, Bool.or_eq_false_iff, decide_eq_false_iff_not,
            not_lt]
          omega
        rw [← e1, ← e2, ← e3, ← e4]
        exact ntGo_continue rest p '<' hclean hgf hbf ih
      · rw [if_neg h1]
        by_cases h2 : c = '['
        · subst h2
          rw [if_pos rfl]
          have e1 : pairCount '<' '>' (p ++ ['[']) = pairCount '<' '>' p := by
            rw [pairCount_snoc]; simp
          have e2 : pairCount '[' ']' (p ++ ['[']) = pairCount '[' ']' p + 1 := by
            rw [pairCount_snoc]; simp
          have e3 : pairCount '{' '}' (p ++ ['[']) = pairCount '{' '}' p := by
            rw [pairCount_snoc]; simp
          have e4 : pairCount '(' ')' (p ++ ['[']) = pairCount '(' ')' p := by
            rw [pairCount_snoc]; simp
          have hbf : specBadAt (p ++ '[' :: rest) p.length = false := by
            rw [hbadAt]
            simp only [anyNeg, e1, e2, e3, e4, Bool.or_eq_false_iff, decide_eq_false_iff_not,
              not_lt]
            omega
          rw [← e1, ← e2, ← e3, ← e4]
          exact ntGo_continue rest p '[' hclean hgf hbf ih
        · rw [if_neg h2]
          by_cases h3 : c = '{'
          · subst h3
            rw [if_pos rfl]
            have e1 : pairCount '<' '>' (p ++ ['{']) = pairCount '<' '>' p := by
              rw [pairCount_snoc]; simp
            have e2 : pairCount '[' ']' (p ++ ['{']) = pairCount '[' ']' p := by
              rw [pairCount_snoc]; simp
            have e3 : pairCount '{' '}' (p ++ ['{']) = pairCount '{' '}' p + 1 := by
              rw [pairCount_snoc]; simp
            have e4 : pairCount '(' ')' (p ++ ['{']) = pairCount '(' ')' p := by
              rw [pairCount_snoc]; simp
            have hbf : specBadAt (p ++ '{' :: rest) p.length = false := by
              rw [hbadAt]
              simp only [anyNeg, e1, e2, e3, e4, Bool.or_eq_false_iff,
                decide_eq_false_iff_not, not_lt]
              omega
            rw [← e1, ← e2, ← e3, ← e4]
            exact ntGo_continue rest p '{' hclean hgf hbf ih
          · rw [if_neg h3]
            by_cases h4 : c = '('
            · subst h4
              rw [if_pos rfl]
              have e1 : pairCount '<' '>' (p ++ ['(']) = pairCount '<' '>' p := by
                rw [pairCount_snoc]; simp
              have e2 : pairCount '[' ']' (p ++ ['(']) = pairCount '[' ']' p := by
                rw [pairCount_snoc]; simp
              have e3 : pairCount '{' '}' (p ++ ['(']) = pairCount '{' '}' p := by
                rw [pairCount_snoc]; simp
              have e4 : pairCount '(' ')' (p ++ ['(']) = pairCount '(' ')' p + 1 := by
                rw [pairCount_snoc]; simp
              have hbf : specBadAt (p ++ '(' :: rest) p.length = false := by
                rw [hbadAt]
                simp only [anyNeg, e1, e2, e3, e4, Bool.or_eq_false_iff,
                  decide_eq_false_iff_not, not_lt]
                omega
              rw [← e1, ← e2, ← e3, ← e4]
              exact ntGo_continue rest p '(' hclean hgf hbf ih
            · rw [if_neg h4]
              by_cases h5 : c = '>'
              · subst h5
                rw [if_pos rfl]
                have e1 : pairCount '<' '>' (p ++ ['>']) = pairCount '<' '>' p - 1 := by
                  rw [pairCount_snoc]; simp
                have e2 : pairCount '[' ']' (p ++ ['>']) = pairCount '[' ']' p := by
                  rw [pairCount_snoc]; simp
                have e3 : pairCount '{' '}' (p ++ ['>']) = pairCount '{' '}' p := by
                  rw [pairCount_snoc]; simp
                have e4 : pairCount '(' ')' (p ++ ['>']) = pairCount '(' ')' p := by
                  rw [pairCount_snoc]; simp
                by_cases hneg : pairCount '<' '>' p - 1 < 0
                · rw [if_pos hneg]
                  have hbt : specBadAt (p ++ '>' :: rest) p.length = true := by
                    rw [hbadAt]
                    simp only [anyNeg, e1, e2, e3, e4, Bool.or_eq_true, decide_eq_true_eq]
                    omega
                  rw [specResolve_stop_bad hlen hgf hbt]
                · rw [if_neg hneg]
                  have hbf : specBadAt (p ++ '>' :: rest) p.length = false := by
                    rw [hbadAt]
                    simp only [anyNeg, e1, e2, e3, e4, Bool.or_eq_false_iff,
                      decide_eq_false_iff_not, not_lt]
                    omega
                  rw [← e1, ← e2, ← e3, ← e4]
                  exact ntGo_continue rest p '>' hclean hgf hbf ih
              · rw [if_neg h5]
                by_cases h6 : c = ']'
                · subst h6
                  rw [if_pos rfl]
                  have e1 : pairCount '<' '>' (p ++ [']']) = pairCount '<' '>' p := by
                    rw [pairCount_snoc]; simp
                  have e2 : pairCount '[' ']' (p ++ [']']) = pairCount '[' ']' p - 1 := by
                    rw [pairCount_snoc]; simp
                  have e3 : pairCount '{' '}' (p ++ [']']) = pairCount '{' '}' p := by
                    rw [pairCount_snoc]; simp
                  have e4 : pairCount '(' ')' (p ++ [']']) = pairCount '(' ')' p := by
                    rw [pairCount_snoc]; simp
                  by_cases hneg : pairCount '[' ']' p - 1 < 0
                  · rw [if_pos hneg]
                    have hbt : specBadAt (p ++ ']' :: rest) p.length = true := by
                      rw [hbadAt]
                      simp only [anyNeg, e1, e2, e3, e4, Bool.or_eq_true, decide_eq_true_eq]
                      omega
                    rw [specResolve_stop_bad hlen hgf hbt]
                  · rw [if_neg hneg]
                    have hbf : specBadAt (p ++ ']' :: rest) p.length = false := by
                      rw [hbadAt]
                      simp only [anyNeg, e1, e2, e3, e4, Bool.or_eq_false_iff,
                        decide_eq_false_iff_not, not_lt]
                      omega
                    rw [← e1, ← e2, ← e3, ← e4]
                    exact ntGo_continue rest p ']' hclean hgf hbf ih
                · rw [if_neg h6]
                  by_cases h7 : c = '}'
                  · subst h7
                    rw [if_pos rfl]
                    have e1 : pairCount '<' '>' (p ++ ['}']) = pairCount '<' '>' p := by
                      rw [pairCount_snoc]; simp
                    have e2 : pairCount '[' ']' (p ++ ['}']) = pairCount '[' ']' p := by
                      rw [pairCount_snoc]; simp
                    have e3 : pairCount '{' '}' (p ++ ['}']) = pairCount '{' '}' p - 1 := by
                      rw [pairCount_snoc]; simp
                    have e4 : pairCount '(' ')' (p ++ ['}']) = pairCount '(' ')' p := by
                      rw [pairCount_snoc]; simp
                    by_cases hneg : pairCount '{' '}' p - 1 < 0
                    · rw [if_pos hneg]
                      have hbt : specBadAt (p ++ '}' :: rest) p.length = true := by
                        rw [hbadAt]
                        simp only [anyNeg, e1, e2, e3, e4, Bool.or_eq_true, decide_eq_true_eq]
                        omega
                      rw [specResolve_stop_bad hlen hgf hbt]
                    · rw [if_neg hneg]
                      have hbf : specBadAt (p ++ '}' :: rest) p.length = false := by
                        rw [hbadAt]
                        simp only [anyNeg, e1, e2, e3, e4, Bool.or_eq_false_iff,
                          decide_eq_false_iff_not, not_lt]
                        omega
                      rw [← e1, ← e2, ← e3, ← e4]
                      exact ntGo_continue rest p '}' hclean hgf hbf ih
                  · rw [if_neg h7]
                    by_cases h8 : c = ')'
                    · subst h8
                      rw [if_pos rfl]
                      have e1 : pairCount '<' '>' (p ++ [')']) = pairCount '<' '>' p := by
                        rw [pairCount_snoc]; simp
                      have e2 : pairCount '[' ']' (p ++ [')']) = pairCount '[' ']' p := by
                        rw [pairCount_snoc]; simp
                      have e3 : pairCount '{' '}' (p ++ [')']) = pairCount '{' '}' p := by
                        rw [pairCount_snoc]; simp
                      have e4 : pairCount '(' ')' (p ++ [')']) = pairCount '(' ')' p - 1 := by
                        rw [pairCount_snoc]; simp
                      by_cases hneg : pairCount '(' ')' p - 1 < 0
                      · rw [if_pos hneg]
                        have hbt : specBadAt (p ++ ')' :: rest) p.length = true := by
                          rw [hbadAt]
                          simp only [anyNeg, e1, e2, e3, e4, Bool.or_eq_true,
                            decide_eq_true_eq]
                          omega
                        rw [specResolve_stop_bad hlen hgf hbt]
                      · rw [if_neg hneg]
                        have hbf : specBadAt (p ++ ')' :: rest) p.length = false := by
                          rw [hbadAt]
                          simp only [anyNeg, e1, e2, e3, e4, Bool.or_eq_false_iff,
                            decide_eq_false_iff_not, not_lt]
                          omega
                        rw [← e1, ← e2, ← e3, ← e4]
                        exact ntGo_continue rest p ')' hclean hgf hbf ih
                    · rw [if_neg h8]
                      have e1 : pairCount '<' '>' (p ++ [c]) = pairCount '<' '>' p := by
                        rw [pairCount_snoc, if_neg h1, if_neg h5]; simp
                      have e2 : pairCount '[' ']' (p ++ [c]) = pairCount '[' ']' p := by
                        rw [pairCount_snoc, if_neg h2, if_neg h6]; simp
                      have e3 : pairCount '{' '}' (p ++ [c]) = pairCount '{' '}' p := by
                        rw [pairCount_snoc, if_neg h3, if_neg h7]; simp
                      have e4 : pairCount '(' ')' (p ++ [c]) = pairCount '(' ')' p := by
                        rw [pairCount_snoc, if_neg h4, if_neg h8]; simp
                      have hbf : specBadAt (p ++ c :: rest) p.length = false := by
                        rw [hbadAt]
                        simp only [anyNeg, e1, e2, e3, e4, Bool.or_eq_false_iff,
                          decide_eq_false_iff_not, not_lt]
                        omega
                      rw [← e1, ← e2, ← e3, ← e4]
                      exact ntGo_continue rest p c hclean hgf hbf ih

/-- C9: the balanced-delimiter tokenizer meets the claim's contract exactly:
for every string and start offset it returns the whitespace-trimmed
substring up to (but not including) the first comma or equals sign found
while all four counters are zero, and the absent result when a counter
would go negative first or the end of the string is reached without such a
delimiter (specNextToken is that contract written as a position-based
scan). -/
theorem c9_next_token_contract (s : List Char) (begin : Nat) :
    nextToken s begin = specNextToken (s.drop begin) := by
  unfold nextToken specNextToken
  have h := ntGo_spec (s.drop begin) [] (by intro k hk; simp at hk)
  simp only [pairCount_nil, List.length_nil, List.nil_append] at h
  rw [h]
